import Mathlib

/-!
# Verification of `rates-conv`: compact bps → per-second-rate table generator

Shallow embedding of `src/script/generate_compact_rates.py`.  The Python script
emits a Solidity contract `Conv` containing a packed byte table `RATES` plus
three functions: `turn` (table lookup), `rtob` (rate → bps via `_rpow`), and
`_rpow` (fixed-point exponentiation by squaring in EVM assembly).

Machine integers are modelled as `Nat` with explicit `% 2^256` where the EVM
wraps (`mul`, `add` inside `assembly` blocks) and with explicit overflow /
underflow failure (`Option` = `none` for `revert`) where Solidity 0.8 checked
arithmetic applies.  EVM `div` by zero yields 0, which coincides with Lean's
`Nat.div` by zero.  Python's unbounded ints are modelled as `Int` where a value
can be negative (the `rate - RAY` delta), as `Nat` elsewhere.
-/

namespace Conv

/-- The EVM machine-word modulus `2^256`: every `mul`/`add` inside an
`assembly` block wraps modulo this. -/
def W : Nat := 2 ^ 256

/-- `RAY = 10**27`, the fixed-point unit, from the generated contract
(`uint256 constant internal RAY = 10**27`). -/
def RAY : Nat := 10 ^ 27

/-- `half := div(RAY, 2)` from `_rpow`, the round-half-up addend. -/
def half : Nat := RAY / 2

/-- The `for { n := div(n, 2) } n { n := div(n, 2) } { ... }` loop of `_rpow`
(generated contract, `_rpow`'s assembly body).  The loop runs while `n ≠ 0`,
halving `n` after each body; its body squares `x` with a division-back
overflow check and round-half-up, and, when the current bit of `n` is set,
multiplies `x` into `z` with the analogous checks.  `revert(0, 0)` is `none`.
The loop is driven by an explicit fuel argument (structural recursion); since
`n` strictly halves, any fuel `> n` reaches the `n = 0` exit, see
`rpowLoop_fuel_irrel`. -/
def rpowLoop : Nat → Nat → Nat → Nat → Option Nat
  | _, _, _, 0 => none
  | x, z, n, fuel + 1 =>
    if n = 0 then
      some z
    else
      let xx := x * x % W
      if xx / x ≠ x then
        none
      else
        let xxRound := (xx + half) % W
        if xxRound < xx then
          none
        else
          let x1 := xxRound / RAY
          if n % 2 ≠ 0 then
            let zx := z * x1 % W
            if x1 ≠ 0 ∧ zx / x1 ≠ z then
              none
            else
              let zxRound := (zx + half) % W
              if zxRound < zx then
                none
              else
                rpowLoop x1 (zxRound / RAY) (n / 2) fuel
          else
            rpowLoop x1 z (n / 2) fuel

/-- `_rpow(x, n)` from the generated contract: `switch x case 0` returns `RAY`
for `n = 0` and `0` otherwise; the default branch initializes `z` to `RAY`
(`n` even) or `x` (`n` odd) and runs the squaring loop starting from
`n := div(n, 2)`.  Fuel `n / 2 + 1` strictly exceeds the loop counter, so the
fuel bound is never hit. -/
def rpow (x n : Nat) : Option Nat :=
  if x = 0 then
    if n = 0 then some RAY else some 0
  else
    rpowLoop x (if n % 2 = 0 then RAY else x) (n / 2) (n / 2 + 1)

/-- One checked fixed-point multiply with round-half-up: the operation that
both the squaring step and the multiply-into-`z` step of `_rpow`'s loop body
instantiate.  The product wraps modulo `2^256`; the step fails unless
dividing the wrapped product back by the (nonzero) multiplier `b` recovers
the other operand `a`; then `half` is added, failing when the addition wraps,
and the result is rescaled by `RAY`. -/
def checkedMulRound (a b : Nat) : Option Nat :=
  let p := a * b % W
  if b ≠ 0 ∧ p / b ≠ a then
    none
  else
    let pRound := (p + half) % W
    if pRound < p then
      none
    else
      some (pRound / RAY)

/-- `365 days` in Solidity, i.e. `365 * 86400` seconds, the exponent used by
`rtob`. -/
def SECONDS_PER_YEAR : Nat := 365 * 86400

/-- Modelled from the spec: the constant `BPS` referenced by the emitted body
of `rtob` (`(yearlyRate - RAY) * BPS + RAY / 2) / RAY`) is never declared in
the contract template of `src/script/generate_compact_rates.py`; the spec
fixes `BPS_SCALE = 10_000`. -/
def BPS : Nat := 10000

/-- `rtob(ray)` from the generated contract:
`yearlyRate = _rpow(ray, 365 days)` followed by
`((yearlyRate - RAY) * BPS + RAY / 2) / RAY` under Solidity 0.8 checked
arithmetic: the subtraction reverts on underflow and the multiplication and
addition revert on overflow past `2^256`. -/
def rtob (ray : Nat) : Option Nat :=
  match rpow ray SECONDS_PER_YEAR with
  | none => none
  | some yearlyRate =>
    if yearlyRate < RAY then
      none
    else if W ≤ (yearlyRate - RAY) * BPS then
      none
    else if W ≤ (yearlyRate - RAY) * BPS + RAY / 2 then
      none
    else
      some (((yearlyRate - RAY) * BPS + RAY / 2) / RAY)

/-- `turn(bps)` from the generated contract.  The packed blob is modelled as
the list of its 32-byte storage words (each a `Nat < 2^256`, most significant
byte first, exactly as `sload` returns them); a read past the blob yields `0`,
as uninitialized EVM storage does.  `require(bps <= MAX)` reverts (`none`)
when violated; then `offset := mul(bps, 8)`, `wordPos := div(offset, 32)`,
`bytePos := mod(offset, 32)`,
`shifted := shr(mul(sub(24, bytePos), 8), value)` and
`rate := add(and(shifted, 0xFFFFFFFFFFFFFFFF), RAY)`.  `bytePos` is always a
multiple of 8 at most 24, so `sub(24, bytePos)` never wraps and truncated
`Nat` subtraction coincides with EVM `sub`; `shr k v` is `v / 2^k` and the
64-bit mask is `% 2^64`; the final `add` wraps modulo `2^256`. -/
def turn (words : List Nat) (max bps : Nat) : Option Nat :=
  if bps ≤ max then
    let offset := bps * 8
    let wordPos := offset / 32
    let bytePos := offset % 32
    let value := words.getD wordPos 0
    let shifted := value / 2 ^ ((24 - bytePos) * 8)
    some ((shifted % 2 ^ 64 + RAY) % W)
  else
    none

/-- `int_to_bytes8(n)` from the Python script: `format(n & ((1 << 64) - 1),
'016x')`.  The 16-hex-digit big-endian string is modelled by its numeric
value, i.e. `n` reduced modulo `2^64` (Python's `&` with the 64-bit mask on a
negative int is its two's-complement residue, which is `Int.emod`). -/
def int_to_bytes8 (n : Int) : Nat := (n % (2 ^ 64 : Int)).toNat

/-- The numeric value of one 32-byte word assembled from four 8-byte fields
`a`, `b`, `c`, `d` (most significant first), as the Python script does by
concatenating four 16-hex-digit strings. -/
def pack4 (a b c d : Nat) : Nat := ((a * 2 ^ 64 + b) * 2 ^ 64 + c) * 2 ^ 64 + d

/-- The delta-encoding pass of `generate_contract`: for each entry (in
ascending bps order, as the Python iterates over `sorted(rates.keys())`)
compute `adjusted_rate = rate - RAY`, raise
`ValueError` (modelled as `Except.error`) when `adjusted_rate >= (1 << 64)`,
otherwise encode it with `int_to_bytes8`. -/
def toDeltas : List (Nat × Nat) → Except String (List Nat)
  | [] => .ok []
  | (bps, rate) :: rest =>
    let adjusted : Int := (rate : Int) - (RAY : Int)
    if (2 ^ 64 : Int) ≤ adjusted then
      .error ("Rate difference too large for bps " ++ toString bps ++ ": " ++
        toString adjusted)
    else
      (toDeltas rest).map fun ds => int_to_bytes8 adjusted :: ds

/-- The word-grouping pass of `generate_contract`: deltas are taken 4 at a
time into one 32-byte word, the final group zero-padded
(`hex_rate = '0' * 16`) when fewer than 4 remain. -/
def generate_words : List Nat → List Nat
  | [] => []
  | [a] => [pack4 a 0 0 0]
  | [a, b] => [pack4 a b 0 0]
  | [a, b, c] => [pack4 a b c 0]
  | a :: b :: c :: d :: rest => pack4 a b c d :: generate_words rest

/-- The core of `generate_contract` from the Python script, for an
already-parsed rates mapping given as its list of `(bps, rate)` entries in
ascending bps order (file parsing and source-text templating are external
I/O per the spec).  Produces the packed words of the `RATES` blob together
with the emitted `MAX` constant (`end_bps = sorted_bps[-1]`), or the
`ValueError` raised on an oversized delta. -/
def generate_contract (sortedRates : List (Nat × Nat)) :
    Except String (List Nat × Nat) :=
  (toDeltas sortedRates).map fun ds =>
    (generate_words ds, (sortedRates.map Prod.fst).getLastD 0)

/-- The dense, gap-free rates table over `[0, M]` used by the round-trip
claim: one entry per bps value, keyed by its own position. -/
def denseTable (r : Nat → Nat) (M : Nat) : List (Nat × Nat) :=
  (List.range (M + 1)).map fun i => (i, r i)

/-- Names of the constants declared by the emitted contract template
(`uint256 constant public MAX = ...`, `uint256 constant internal RAY = 10**27`
are the only constant declarations in the template, lines 92-93 of
`src/script/generate_compact_rates.py`). -/
def declaredConstants : List String := ["MAX", "RAY"]

/-- Names of the constants referenced by the emitted body of `rtob`
(`((yearlyRate - RAY) * BPS + RAY / 2) / RAY`, line 129 of the template). -/
def rtobReferencedConstants : List String := ["RAY", "BPS"]

/-- Names of the constants referenced by the emitted body of `turn`
(`require(bps <= MAX)` and the assembly block referencing `RATES.slot` and
`RAY`). -/
def turnReferencedConstants : List String := ["MAX", "RATES", "RAY"]

/-! ## Supporting lemmas -/

/-- Extracting each of the four 8-byte fields of a packed word by shift and
mask recovers the field, provided each field fits 64 bits. -/
theorem pack4_spec (a b c d : Nat) (ha : a < 2 ^ 64) (hb : b < 2 ^ 64)
    (hc : c < 2 ^ 64) (hd : d < 2 ^ 64) :
    pack4 a b c d / 2 ^ 192 % 2 ^ 64 = a ∧
    pack4 a b c d / 2 ^ 128 % 2 ^ 64 = b ∧
    pack4 a b c d / 2 ^ 64 % 2 ^ 64 = c ∧
    pack4 a b c d / 2 ^ 0 % 2 ^ 64 = d := by
  unfold pack4
  refine ⟨?_, ?_, ?_, ?_⟩ <;> omega

/-- Every word produced by `generate_words` holds the deltas of four
consecutive entries; extracting entry `i` from word `i / 4` at in-word slot
`i % 4` recovers the `i`-th delta, provided all deltas fit 64 bits. -/
theorem generate_words_extract :
    ∀ ds : List Nat, (∀ d ∈ ds, d < 2 ^ 64) → ∀ i, i < ds.length →
      (generate_words ds).getD (i / 4) 0 / 2 ^ ((3 - i % 4) * 64) % 2 ^ 64 =
        ds.getD i 0 := by
  intro ds
  induction ds using generate_words.induct with
  | case1 =>
    intro _ i hi
    simp at hi
  | case2 a =>
    intro h i hi
    have ha : a < 2 ^ 64 := h a (by simp)
    have h0 : (0 : Nat) < 2 ^ 64 := by norm_num
    simp only [List.length_cons, List.length_nil] at hi
    interval_cases i
    simpa [generate_words] using (pack4_spec a 0 0 0 ha h0 h0 h0).1
  | case3 a b =>
    intro h i hi
    have ha : a < 2 ^ 64 := h a (by simp)
    have hb : b < 2 ^ 64 := h b (by simp)
    have h0 : (0 : Nat) < 2 ^ 64 := by norm_num
    simp only [List.length_cons, List.length_nil] at hi
    interval_cases i
    · simpa [generate_words] using (pack4_spec a b 0 0 ha hb h0 h0).1
    · simpa [generate_words] using (pack4_spec a b 0 0 ha hb h0 h0).2.1
  | case4 a b c =>
    intro h i hi
    have ha : a < 2 ^ 64 := h a (by simp)
    have hb : b < 2 ^ 64 := h b (by simp)
    have hc : c < 2 ^ 64 := h c (by simp)
    have h0 : (0 : Nat) < 2 ^ 64 := by norm_num
    simp only [List.length_cons, List.length_nil] at hi
    interval_cases i
    · simpa [generate_words] using (pack4_spec a b c 0 ha hb hc h0).1
    · simpa [generate_words] using (pack4_spec a b c 0 ha hb hc h0).2.1
    · simpa [generate_words] using (pack4_spec a b c 0 ha hb hc h0).2.2.1
  | case5 a b c d rest ih =>
    intro h i hi
    have ha : a < 2 ^ 64 := h a (by simp)
    have hb : b < 2 ^ 64 := h b (by simp)
    have hc : c < 2 ^ 64 := h c (by simp)
    have hd : d < 2 ^ 64 := h d (by simp)
    by_cases hi4 : i < 4
    · interval_cases i
      · simpa [generate_words] using (pack4_spec a b c d ha hb hc hd).1
      · simpa [generate_words] using (pack4_spec a b c d ha hb hc hd).2.1
      · simpa [generate_words] using (pack4_spec a b c d ha hb hc hd).2.2.1
      · simpa [generate_words] using (pack4_spec a b c d ha hb hc hd).2.2.2
    · obtain ⟨j, rfl⟩ : ∃ j, i = j + 4 := ⟨i - 4, by omega⟩
      have hj : j < rest.length := by
        simp only [List.length_cons] at hi
        omega
      have h' : ∀ x ∈ rest, x < 2 ^ 64 := fun x hx => h x (by simp [hx])
      have e1 : (j + 4) / 4 = j / 4 + 1 := by omega
      have e2 : (j + 4) % 4 = j % 4 := by omega
      have e3 : j + 4 = j + 1 + 1 + 1 + 1 := by omega
      rw [e3]
      simp only [generate_words, List.getD_cons_succ]
      rw [← e3, e1, e2, List.getD_cons_succ]
      exact ih h' j hj

/-- When no delta overflows 64 bits, `toDeltas` succeeds and encodes each
entry's `rate - RAY` with `int_to_bytes8`. -/
theorem toDeltas_ok :
    ∀ l : List (Nat × Nat), (∀ p ∈ l, ((p.2 : Int) - RAY) < 2 ^ 64) →
      toDeltas l = .ok (l.map fun p => int_to_bytes8 ((p.2 : Int) - RAY))
  | [], _ => rfl
  | (bps, rate) :: rest, h => by
    have hhd : ((rate : Int) - RAY) < 2 ^ 64 := h (bps, rate) (by simp)
    have hrest := toDeltas_ok rest (fun p hp => h p (by simp [hp]))
    simp only [toDeltas, List.map_cons]
    rw [if_neg (not_le.mpr hhd), hrest]
    rfl

/-- If some entry's delta overflows 64 bits, `toDeltas` fails. -/
theorem toDeltas_error :
    ∀ l : List (Nat × Nat), (∃ p ∈ l, (2 ^ 64 : Int) ≤ (p.2 : Int) - RAY) →
      ∃ msg, toDeltas l = .error msg
  | [], h => by simp at h
  | (bps, rate) :: rest, h => by
    simp only [toDeltas]
    by_cases hhd : (2 ^ 64 : Int) ≤ (rate : Int) - RAY
    · exact ⟨_, by rw [if_pos hhd]⟩
    · have : ∃ p ∈ rest, (2 ^ 64 : Int) ≤ (p.2 : Int) - RAY := by
        obtain ⟨p, hp, hge⟩ := h
        rcases List.mem_cons.mp hp with rfl | hmem
        · exact absurd hge hhd
        · exact ⟨p, hmem, hge⟩
      obtain ⟨msg, hmsg⟩ := toDeltas_error rest this
      exact ⟨msg, by rw [if_neg hhd, hmsg]; rfl⟩

/-- The last bps of the dense table over `[0, M]` is `M`. -/
theorem denseTable_lastBps (r : Nat → Nat) (M : Nat) :
    ((denseTable r M).map Prod.fst).getLastD 0 = M := by
  unfold denseTable
  rw [List.map_map]
  have h1 : (List.range (M + 1)).map (Prod.fst ∘ fun i => (i, r i)) =
      List.range (M + 1) := by
    simp [Function.comp_def]
  rw [h1, List.range_succ, List.getLastD_concat]

/-- The `i`-th encoded delta of the dense table is `int_to_bytes8 (r i - RAY)`. -/
theorem denseTable_deltas_getD (r : Nat → Nat) (M i : Nat) (hi : i ≤ M) :
    (((denseTable r M).map fun p => int_to_bytes8 ((p.2 : Int) - RAY)).getD i 0)
      = int_to_bytes8 ((r i : Int) - RAY) := by
  unfold denseTable
  rw [List.map_map, List.getD_eq_getElem?_getD, List.getElem?_map,
    List.getElem?_range (by omega : i < M + 1)]
  rfl

/-- `int_to_bytes8` of an in-range nonnegative delta is the delta itself. -/
theorem int_to_bytes8_of_nonneg (n : Int) (h0 : 0 ≤ n) (h1 : n < 2 ^ 64) :
    int_to_bytes8 n = n.toNat := by
  unfold int_to_bytes8
  rw [Int.emod_eq_of_lt h0 h1]

/-- The squaring step's division-back test `div(xx, x) == x` is equivalent to
the guarded form used by the multiply-into-`z` step: when `x = 0`, EVM
division by zero makes the unguarded test pass vacuously. -/
theorem xcheck_iff (x : Nat) :
    (x * x % W / x ≠ x) ↔ (x ≠ 0 ∧ x * x % W / x ≠ x) := by
  constructor
  · intro hne
    refine ⟨?_, hne⟩
    rintro rfl
    simp at hne
  · exact fun h => h.2

/-- A `bind` pushed under an error-branching `if`. -/
theorem ite_none_bind {α β : Type} (c : Prop) [Decidable c] (a : Option α)
    (f : α → Option β) :
    (if c then none else a).bind f = if c then none else a.bind f := by
  split <;> rfl

/-! ## Claim theorems -/

/-- C4 (code bug): the emitted contract is supposed to declare every constant
its entry points reference, with `BPS_SCALE = 10_000`; but the template's
`rtob` body references the constant `BPS` while the template declares only
`MAX` and `RAY`, so the emitted artifact references an undeclared constant. -/
theorem claim4_bps_undeclared :
    "BPS" ∈ rtobReferencedConstants ∧ "BPS" ∉ declaredConstants := by
  decide

/-- C9: `turn` fails (reverts on `require(bps <= MAX)`) exactly when
`bps > MAX`, and for every `bps ≤ MAX` it returns some rate rather than a
default value or failure. -/
theorem claim9_range_rejection (words : List Nat) (max bps : Nat) :
    (turn words max bps = none ↔ max < bps) ∧
    (bps ≤ max → ∃ rate, turn words max bps = some rate) := by
  refine ⟨?_, fun h => ?_⟩
  · simp only [turn]
    by_cases h : bps ≤ max
    · simp only [if_pos h]
      constructor
      · intro hc
        exact absurd hc (by simp)
      · intro hc
        omega
    · simp only [if_neg h]
      constructor
      · intro _
        omega
      · intro _
        trivial
  · simp only [turn, if_pos h]
    exact ⟨_, rfl⟩

/-- C9 witness: at `bps = 3 ≤ max = 10` the lookup returns a rate. -/
theorem claim9_witness : 3 ≤ 10 ∧ ∃ rate, turn [] 10 3 = some rate :=
  ⟨by decide, (claim9_range_rejection [] 10 3).2 (by decide)⟩

/-- C7: the pow identities `pow(RAY, 0) = RAY`, `pow(0, 0) = RAY`,
`pow(0, n) = 0` for `n > 0`, and `pow(x, 1) = x` for every base `x`. -/
theorem claim7_pow_identities :
    rpow RAY 0 = some RAY ∧ rpow 0 0 = some RAY ∧
    (∀ n, 0 < n → rpow 0 n = some 0) ∧ (∀ x, rpow x 1 = some x) := by
  refine ⟨rfl, rfl, fun n hn => ?_, fun x => ?_⟩
  · unfold rpow
    rw [if_pos rfl, if_neg (by omega)]
  · by_cases hx : x = 0
    · subst hx
      rfl
    · unfold rpow
      rw [if_neg hx]
      norm_num
      rfl

/-- C7 witness: `pow(0, 7) = 0` with `7 > 0`. -/
theorem claim7_witness : 0 < 7 ∧ rpow 0 7 = some 0 :=
  ⟨by decide, claim7_pow_identities.2.2.1 7 (by decide)⟩

/-- C5: for a nonzero base `x`, the squaring-step test `div(xx, x) == x` on
the wrapped product `xx = x*x mod 2^256` passes iff the true mathematical
product `x*x` is below `2^256`, and when mathematical overflow occurs the
loop iteration yields no partial result (it reverts). -/
theorem claim5_squaring_overflow_check (x : Nat) (hx : x ≠ 0) :
    ((x * x % W / x = x) ↔ x * x < W) ∧
    (∀ z n fuel, n ≠ 0 → W ≤ x * x → rpowLoop x z n (fuel + 1) = none) := by
  have hW : 0 < W := by norm_num [W]
  have hxpos : 0 < x := Nat.pos_of_ne_zero hx
  have key : W ≤ x * x → x * x % W / x < x := by
    intro hge
    have h1 : x * x % W < W := Nat.mod_lt _ hW
    have h2 : x * x % W < x * x := lt_of_lt_of_le h1 hge
    exact (Nat.div_lt_iff_lt_mul hxpos).mpr h2
  have hiff : (x * x % W / x = x) ↔ x * x < W := by
    constructor
    · intro heq
      by_contra hge
      have := key (not_lt.mp hge)
      omega
    · intro hlt
      rw [Nat.mod_eq_of_lt hlt, Nat.mul_div_cancel_left x hxpos]
  refine ⟨hiff, fun z n fuel hn hge => ?_⟩
  have hne : x * x % W / x ≠ x := fun heq => absurd heq (by
    intro h
    have := key hge
    omega)
  simp only [rpowLoop, if_neg hn]
  rw [if_pos hne]

/-- C5 witness: at `x = 2^128` the true square is `2^256`, mathematical
overflow occurs, and the loop body reverts. -/
theorem claim5_witness :
    ((2 ^ 128 * 2 ^ 128 % W / 2 ^ 128 = 2 ^ 128) ↔ 2 ^ 128 * 2 ^ 128 < W) ∧
    rpowLoop (2 ^ 128) RAY 1 1 = none :=
  ⟨(claim5_squaring_overflow_check (2 ^ 128) (by decide)).1,
   (claim5_squaring_overflow_check (2 ^ 128) (by decide)).2 RAY 1 0 (by decide)
     (by decide)⟩

/-- `RAY` as a power literal, for arithmetic automation. -/
theorem RAY_eq : RAY = 10 ^ 27 := rfl

/-- `W` as a power literal, for arithmetic automation. -/
theorem W_eq : W = 2 ^ 256 := rfl

/-- C2 counterexample: build the table from the two-entry mapping
`{0: RAY, 100: RAY + 5}` (so `MAX = 100`).  The packer stores the two deltas
positionally in a single word, but `turn(100)` reads word `100*8/32 = 25`,
which lies beyond the one-word blob and is zero, so it returns `RAY`, not
`RAY + 5` as the claim states. -/
theorem claim2_counterexample :
    generate_contract [(0, RAY), (100, RAY + 5)] = .ok ([pack4 0 5 0 0], 100) ∧
    turn [pack4 0 5 0 0] 100 100 = some RAY ∧ RAY ≠ RAY + 5 :=
  ⟨rfl, by decide, by decide⟩

/-- C2 amended: for the table built from `{0: RAY, 100: RAY + 5}`
(`MAX = 100`), the word-index arithmetic satisfies `wordIndex = bps / 4`,
`turn(0)` returns `RAY`, `turn(101)` fails with `OutOfRange`, but `turn(100)`
returns `RAY` — the packed blob stores entries by position, so the slot read
for `bps = 100` lies beyond the blob and decodes as a zero delta. -/
theorem claim2_amended :
    generate_contract [(0, RAY), (100, RAY + 5)] = .ok ([pack4 0 5 0 0], 100) ∧
    (∀ bps : Nat, bps * 8 / 32 = bps / 4) ∧
    turn [pack4 0 5 0 0] 100 0 = some RAY ∧
    turn [pack4 0 5 0 0] 100 100 = some RAY ∧
    turn [pack4 0 5 0 0] 100 101 = none :=
  ⟨rfl, fun bps => by omega, by decide, by decide, by decide⟩

/-- C3 counterexample: at `ray = 0` the pow step succeeds (`pow(0, n) = 0`),
yet `rtob 0` fails, because `yearlyRate - RAY` underflows under Solidity 0.8
checked arithmetic; so `rtob` does not succeed whenever pow succeeds. -/
theorem claim3_counterexample :
    rpow 0 SECONDS_PER_YEAR = some 0 ∧ rtob 0 = none :=
  ⟨rfl, rfl⟩

/-- C3 amended: `rtob` computes `yearly = pow(rate, 365*86400)` and returns
`((yearly - RAY) * BPS_SCALE + RAY/2) / RAY` with `BPS_SCALE = 10_000`
(integer division, round-half-up), with no restriction on the output range;
it fails when the pow step fails, and also — Solidity 0.8 checked
arithmetic — exactly when `yearly < RAY` (subtraction underflow) or
`(yearly - RAY) * BPS_SCALE` or the subsequent `+ RAY/2` exceeds `2^256`
(multiplication/addition overflow). -/
theorem claim3_amended (ray : Nat) :
    (rpow ray SECONDS_PER_YEAR = none → rtob ray = none) ∧
    (∀ yearly, rpow ray SECONDS_PER_YEAR = some yearly →
      (RAY ≤ yearly → (yearly - RAY) * BPS + RAY / 2 < W →
        rtob ray = some (((yearly - RAY) * BPS + RAY / 2) / RAY)) ∧
      ((yearly < RAY ∨ W ≤ (yearly - RAY) * BPS ∨
        W ≤ (yearly - RAY) * BPS + RAY / 2) → rtob ray = none)) := by
  constructor
  · intro h
    simp only [rtob, h]
  · intro yearly h
    constructor
    · intro h1 h2
      have hc2 : ¬ W ≤ (yearly - RAY) * BPS :=
        not_le.mpr (lt_of_le_of_lt (Nat.le_add_right _ _) h2)
      simp only [rtob, h]
      rw [if_neg (not_lt.mpr h1), if_neg hc2, if_neg (not_le.mpr h2)]
    · intro h3
      simp only [rtob, h]
      split_ifs with a b c
      · rfl
      · rfl
      · rfl
      · rcases h3 with h3 | h3 | h3
        · exact absurd h3 a
        · exact absurd h3 b
        · exact absurd h3 c

/-- C3 witness: at `ray = 0` the pow step returns `0`, which is below `RAY`,
and the amended underflow failure condition fires. -/
theorem claim3_witness :
    rpow 0 SECONDS_PER_YEAR = some 0 ∧ 0 < RAY ∧ rtob 0 = none :=
  ⟨rfl, by decide, ((claim3_amended 0).2 0 rfl).2 (Or.inl (by decide))⟩

/-- C8: if some entry's delta `rate - RAY` is `≥ 2^64`, table construction
fails with the `ValueError` (`EncodingOverflow`), and no packed artifact is
produced — `generate_contract` yields an error, never a partial blob. -/
theorem claim8_encoding_overflow (entries : List (Nat × Nat))
    (h : ∃ p ∈ entries, (2 ^ 64 : Int) ≤ (p.2 : Int) - RAY) :
    ∃ msg, generate_contract entries = .error msg := by
  obtain ⟨msg, hmsg⟩ := toDeltas_error entries h
  refine ⟨msg, ?_⟩
  unfold generate_contract
  rw [hmsg]
  rfl

/-- C8 witness: the single-entry table with rate `RAY + 2^64` (delta exactly
`2^64`) fails to build. -/
theorem claim8_witness :
    (∃ p ∈ ([(0, RAY + 2 ^ 64)] : List (Nat × Nat)),
      (2 ^ 64 : Int) ≤ (p.2 : Int) - RAY) ∧
    ∃ msg, generate_contract [(0, RAY + 2 ^ 64)] = .error msg :=
  ⟨⟨((0, RAY + 2 ^ 64) : Nat × Nat), by decide, by decide⟩,
   claim8_encoding_overflow _
     ⟨((0, RAY + 2 ^ 64) : Nat × Nat), by decide, by decide⟩⟩

/-- C10 (implicit): an entry whose rate is below `RAY` is not rejected — the
only check rejects deltas `≥ 2^64` — and its negative delta `-k` is silently
encoded modulo `2^64` by the two's-complement mask in `int_to_bytes8`, so the
entry decodes to the rate `RAY + (2^64 - k)`, near `RAY + 2^64`, instead of
failing the build. -/
theorem claim10_negative_delta (k : Nat) (h1 : 0 < k) (h2 : k < 2 ^ 64) :
    generate_contract [(0, RAY - k)] = .ok ([pack4 (2 ^ 64 - k) 0 0 0], 0) ∧
    turn [pack4 (2 ^ 64 - k) 0 0 0] 0 0 = some (2 ^ 64 - k + RAY) := by
  have hkRAY : k ≤ RAY := by
    rw [RAY_eq]
    omega
  have hδ : int_to_bytes8 (((RAY - k : Nat) : Int) - (RAY : Nat)) =
      2 ^ 64 - k := by
    unfold int_to_bytes8
    simp only [RAY_eq] at *
    omega
  constructor
  · simp only [generate_contract, toDeltas, List.map_cons, List.map_nil]
    rw [if_neg (by simp only [RAY_eq] at *; omega)]
    simp only [Except.map, hδ]
    rfl
  · simp only [turn, if_pos (le_refl 0)]
    have hw : pack4 (2 ^ 64 - k) 0 0 0 = (2 ^ 64 - k) * 2 ^ 192 := by
      unfold pack4
      ring
    simp only [show (0 : Nat) * 8 = 0 from rfl, show (0 : Nat) / 32 = 0 from rfl,
      show (0 : Nat) % 32 = 0 from rfl, List.getD_cons_zero,
      show ((24 : Nat) - 0) * 8 = 192 from rfl]
    rw [hw, Nat.mul_div_cancel _ (by norm_num : (0 : Nat) < 2 ^ 192)]
    have h4 : ((2 ^ 64 - k) % 2 ^ 64 + RAY) % W = 2 ^ 64 - k + RAY := by
      simp only [RAY_eq, W_eq]
      omega
    rw [h4]

/-- C10 witness: rate `RAY - 1` builds successfully and decodes to
`RAY + 2^64 - 1`. -/
theorem claim10_witness :
    0 < 1 ∧ 1 < 2 ^ 64 ∧
    (generate_contract [(0, RAY - 1)] = .ok ([pack4 (2 ^ 64 - 1) 0 0 0], 0) ∧
     turn [pack4 (2 ^ 64 - 1) 0 0 0] 0 0 = some (2 ^ 64 - 1 + RAY)) :=
  ⟨by decide, by decide, claim10_negative_delta 1 (by decide) (by decide)⟩

/-- The fuel driving `rpowLoop` is irrelevant as long as it exceeds the loop
counter `n`: since `n` strictly halves each iteration, any two sufficient
fuels give the same result.  This justifies the fuel `n / 2 + 1` used by
`rpow`. -/
theorem rpowLoop_fuel_irrel (n : Nat) :
    ∀ x z fuel₁ fuel₂, n < fuel₁ → n < fuel₂ →
      rpowLoop x z n fuel₁ = rpowLoop x z n fuel₂ := by
  induction n using Nat.strong_induction_on with
  | _ n ih =>
    intro x z fuel₁ fuel₂ h1 h2
    obtain ⟨f1, rfl⟩ : ∃ f1, fuel₁ = f1 + 1 := ⟨fuel₁ - 1, by omega⟩
    obtain ⟨f2, rfl⟩ : ∃ f2, fuel₂ = f2 + 1 := ⟨fuel₂ - 1, by omega⟩
    by_cases hn : n = 0
    · subst hn
      rfl
    · have hrec : ∀ x' z', rpowLoop x' z' (n / 2) f1 = rpowLoop x' z' (n / 2) f2 :=
        fun x' z' => ih (n / 2) (by omega) x' z' f1 f2 (by omega) (by omega)
      simp only [rpowLoop, if_neg hn]
      split_ifs <;> simp [hrec]

/-- C6: in every loop iteration of `_rpow` where the current bit of `n` is
set, the multiply-into-`z` step is the very same checked operation as the
squaring step applied to `z` and the updated `x`: both are instances of
`checkedMulRound` — the same division-back overflow check on the product
(vacuous for a zero multiplier, which for the squaring step is how EVM
zero-division makes the unguarded test pass), the same `+ half` round-half-up
with the same wrap check, and the same `RAY` rescale — performed before `z`
is updated. -/
theorem claim6_mirrored_step (x z n fuel : Nat) (hn : n ≠ 0) :
    rpowLoop x z n (fuel + 1) =
      (checkedMulRound x x).bind fun x1 =>
        if n % 2 ≠ 0 then
          (checkedMulRound z x1).bind fun z1 => rpowLoop x1 z1 (n / 2) fuel
        else
          rpowLoop x1 z (n / 2) fuel := by
  have hcm : ∀ a b : Nat, checkedMulRound a b =
      if b ≠ 0 ∧ a * b % W / b ≠ a then none
      else if (a * b % W + half) % W < a * b % W then none
      else some ((a * b % W + half) % W / RAY) := fun a b => rfl
  simp only [rpowLoop, if_neg hn, hcm, ite_none_bind, Option.some_bind]
  exact if_congr (xcheck_iff x) rfl rfl

/-- C6 witness: a concrete odd-exponent iteration (`n = 3`) where the set-bit
branch runs. -/
theorem claim6_witness :
    (3 : Nat) ≠ 0 ∧
    rpowLoop RAY RAY 3 (1 + 1) =
      (checkedMulRound RAY RAY).bind fun x1 =>
        if (3 : Nat) % 2 ≠ 0 then
          (checkedMulRound RAY x1).bind fun z1 => rpowLoop x1 z1 (3 / 2) 1
        else
          rpowLoop x1 RAY (3 / 2) 1 :=
  ⟨by decide, claim6_mirrored_step RAY RAY 3 1 (by decide)⟩

/-- C1: round trip.  For a table built from a dense, gap-free mapping of
every bps in `[0, M]` whose rates all satisfy `RAY ≤ rate` and
`rate - RAY < 2^64`, the build succeeds with `MAX = M`, and for every bps in
`[0, M]` the lookup `turn(bps)` returns exactly the rate that was packed for
that bps: the stored 8-byte big-endian delta plus `RAY`. -/
theorem claim1_round_trip (r : Nat → Nat) (M : Nat)
    (hge : ∀ i, i ≤ M → RAY ≤ r i)
    (hlt : ∀ i, i ≤ M → r i < RAY + 2 ^ 64) :
    ∃ words, generate_contract (denseTable r M) = .ok (words, M) ∧
      ∀ bps, bps ≤ M → turn words M bps = some (r bps) := by
  have hmem : ∀ p ∈ denseTable r M, ((p.2 : Int) - RAY) < 2 ^ 64 := by
    intro p hp
    unfold denseTable at hp
    obtain ⟨i, hi, rfl⟩ := List.mem_map.mp hp
    have hiM : i ≤ M := by
      have := List.mem_range.mp hi
      omega
    have h1 := hlt i hiM
    simp only [RAY_eq] at h1 ⊢
    omega
  set ds := (denseTable r M).map fun p => int_to_bytes8 ((p.2 : Int) - RAY)
    with hds
  have hdsmem : ∀ d ∈ ds, d < 2 ^ 64 := by
    intro d hd
    rw [hds] at hd
    obtain ⟨p, hp, rfl⟩ := List.mem_map.mp hd
    have h1 := hmem p hp
    unfold int_to_bytes8
    have h0 : (0 : Int) ≤ ((p.2 : Int) - RAY) % (2 ^ 64 : Int) :=
      Int.emod_nonneg _ (by norm_num)
    have h2 : ((p.2 : Int) - RAY) % (2 ^ 64 : Int) < 2 ^ 64 :=
      Int.emod_lt_of_pos _ (by norm_num)
    omega
  have hlen : ds.length = M + 1 := by
    simp [hds, denseTable]
  refine ⟨generate_words ds, ?_, ?_⟩
  · unfold generate_contract
    rw [toDeltas_ok (denseTable r M) hmem]
    simp only [Except.map, ← hds]
    rw [denseTable_lastBps]
  · intro bps hbps
    have hext := generate_words_extract ds hdsmem bps (by omega)
    have hgetd : ds.getD bps 0 = int_to_bytes8 ((r bps : Int) - RAY) := by
      rw [hds]
      exact denseTable_deltas_getD r M bps hbps
    have hδ : int_to_bytes8 ((r bps : Int) - RAY) = r bps - RAY := by
      have h1 := hge bps hbps
      have h2 := hlt bps hbps
      unfold int_to_bytes8
      simp only [RAY_eq] at h1 h2 ⊢
      omega
    have e1 : bps * 8 / 32 = bps / 4 := by omega
    have e2 : (24 - bps * 8 % 32) * 8 = (3 - bps % 4) * 64 := by omega
    simp only [turn, if_pos hbps, e1, e2]
    rw [hext, hgetd, hδ]
    have hfin : (r bps - RAY + RAY) % W = r bps := by
      have h1 := hge bps hbps
      have h2 := hlt bps hbps
      simp only [RAY_eq, W_eq] at h1 h2 ⊢
      omega
    rw [hfin]

/-- C1 witness: the dense table over `[0, 5]` with rates `RAY + i` builds
with `MAX = 5` and looks every entry back up exactly. -/
theorem claim1_witness :
    (∀ i, i ≤ 5 → RAY ≤ RAY + i) ∧ (∀ i, i ≤ 5 → RAY + i < RAY + 2 ^ 64) ∧
    ∃ words, generate_contract (denseTable (fun i => RAY + i) 5) =
        .ok (words, 5) ∧
      ∀ bps, bps ≤ 5 → turn words 5 bps = some (RAY + bps) :=
  ⟨fun i _ => Nat.le_add_right RAY i, by decide,
   claim1_round_trip (fun i => RAY + i) 5 (fun i _ => Nat.le_add_right RAY i)
     (by decide)⟩

end Conv
